import Mathlib

/-
Verification of the `rnbt` world-descriptor layer (`src/lib.rs`).

The file embeds, as executable Lean definitions, the code of
`McWorldDescriptor` / `PyMcWorldDescriptor` from `src/lib.rs`:
the recursive compound search, the path dispatch (`read_input_path`,
`read_file_format`), the constructor `new` and `to_json`.  The NBT tag
data model lives in the crate module `nbt_tag`, which is not part of the
sources given here; it is modelled from the spec (section 3, "Tag tree
node") together with the accessors `lib.rs` visibly uses
(`name`, `values`, `ty()`, `compound_as_ref()`, `list_as_ref()`).
File-system effects (directory listing, the region / generic-binary /
JSON decoders that live in the missing crate modules) are modelled as an
explicit environment record `FileSys`.
-/

/-- Modelled from the spec: the 13 NBT tag variants (spec section 3),
mirroring the crate's `nbt_tag::NbtTagType` used by `lib.rs` via `v.ty()`. -/
inductive NbtTagType where
  | End
  | Byte
  | Short
  | Int
  | Long
  | Float
  | Double
  | ByteArray
  | String
  | List
  | Compound
  | IntArray
  | LongArray
deriving DecidableEq, Repr

/-- IEEE-754 payloads are irrelevant to every operation verified here; they
are carried as their raw bit pattern. -/
abbrev FloatBits := Nat

mutual
/-- Modelled from the spec: an in-memory tag node carries a variant
discriminator, an associated name, and a value appropriate to its variant
(spec section 3).  Mirrors the crate's `nbt_tag::NbtTag` sum type. -/
inductive NbtTag where
  | tag_end : NbtTag
  | byte (name : String) (value : Int) : NbtTag
  | short (name : String) (value : Int) : NbtTag
  | int (name : String) (value : Int) : NbtTag
  | long (name : String) (value : Int) : NbtTag
  | float (name : String) (value : FloatBits) : NbtTag
  | double (name : String) (value : FloatBits) : NbtTag
  | byte_array (name : String) (values : List Int) : NbtTag
  | string (name : String) (value : String) : NbtTag
  | list (l : NbtTagList) : NbtTag
  | compound (c : NbtTagCompound) : NbtTag
  | int_array (name : String) (values : List Int) : NbtTag
  | long_array (name : String) (values : List Int) : NbtTag

/-- Modelled from the spec: a List tag holds a name, the homogeneous element
type id and its (unnamed) element values.  Mirrors `nbt_tag::NbtTagList`,
whose field `values` is iterated by `lib.rs`. -/
inductive NbtTagList where
  | mk (name : String) (element_type : NbtTagType) (values : List NbtTag) : NbtTagList

/-- Modelled from the spec: a Compound holds its own name and an ordered
mapping from child name to child tag (spec section 3, "Compound value:
ordered mapping from name to child node").  Mirrors
`nbt_tag::NbtTagCompound` with its fields `name` and `values`, iterated by
`lib.rs` as `(key, value)` pairs in order. -/
inductive NbtTagCompound where
  | mk (name : String) (values : List (String × NbtTag)) : NbtTagCompound
end

def NbtTagCompound.name : NbtTagCompound → String
  | .mk n _ => n

def NbtTagCompound.values : NbtTagCompound → List (String × NbtTag)
  | .mk _ vs => vs

def NbtTagList.values : NbtTagList → List NbtTag
  | .mk _ _ vs => vs

def NbtTagList.name : NbtTagList → String
  | .mk n _ _ => n

/-- `NbtTag::ty()` as used by `recursive_compound_search` in `lib.rs`. -/
def NbtTag.ty : NbtTag → NbtTagType
  | .tag_end => .End
  | .byte _ _ => .Byte
  | .short _ _ => .Short
  | .int _ _ => .Int
  | .long _ _ => .Long
  | .float _ _ => .Float
  | .double _ _ => .Double
  | .byte_array _ _ => .ByteArray
  | .string _ _ => .String
  | .list _ => .List
  | .compound _ => .Compound
  | .int_array _ _ => .IntArray
  | .long_array _ _ => .LongArray

/-- `NbtTag::compound_as_ref()` as used by `lib.rs`: the safe narrowing
accessor to the Compound payload. -/
def NbtTag.compound_as_ref : NbtTag → Option NbtTagCompound
  | .compound c => some c
  | _ => none

/-- `NbtTag::list_as_ref()` as used by `lib.rs`: the safe narrowing accessor
to the List payload. -/
def NbtTag.list_as_ref : NbtTag → Option NbtTagList
  | .list l => some l
  | _ => none

/-- Fidelity of the desugaring used below: testing `ty() == Compound` and
then unwrapping `compound_as_ref()` is exactly matching the `compound`
constructor. -/
theorem compound_as_ref_eq_some (t : NbtTag) (c : NbtTagCompound) :
    t.compound_as_ref = some c ↔ t = .compound c := by
  cases t <;> simp [NbtTag.compound_as_ref]

theorem ty_eq_compound (t : NbtTag) :
    t.ty = NbtTagType.Compound ↔ ∃ c, t = .compound c := by
  cases t <;> simp [NbtTag.ty]

theorem list_as_ref_eq_some (t : NbtTag) (l : NbtTagList) :
    t.list_as_ref = some l ↔ t = .list l := by
  cases t <;> simp [NbtTag.list_as_ref]

theorem ty_eq_list (t : NbtTag) :
    t.ty = NbtTagType.List ↔ ∃ l, t = .list l := by
  cases t <;> simp [NbtTag.ty]

/-! ## The recursive compound search (`lib.rs` lines 248-293)

`McWorldDescriptor::recursive_compound_search` pushes the compound and
returns `true` as soon as its own name equals the key ("End condition"),
otherwise it loops over the children: a Compound child is recursed into; a
List child has each of its elements tested, recursing only into elements
that are themselves Compounds.  The Rust `for` loops over `values` with an
early `return true` when `compound_found && stop_at_first` become the two
mutually recursive loop functions below.  The mutable `result_list` vector
is threaded as an accumulator (`push` = append at the end); the `&self`
receiver is unused by the Rust method and is dropped. -/
mutual
def McWorldDescriptor.recursive_compound_search
    (tag_compound : NbtTagCompound) (result_list : List NbtTagCompound)
    (key : String) (stop_at_first : Bool) : List NbtTagCompound × Bool :=
  match tag_compound with
  | .mk name vs =>
    if name = key then (result_list ++ [tag_compound], true)
    else McWorldDescriptor.rcs_loop_values vs result_list key stop_at_first

/-- The `for (_, v) in tag_compound.values.iter()` loop of
`recursive_compound_search`.  The first match arm is the
`v.ty() == Compound` / `compound_as_ref()` branch, the second the
`v.ty() == List` / `list_as_ref()` branch (see the fidelity lemmas
`ty_eq_compound`, `compound_as_ref_eq_some` above). -/
def McWorldDescriptor.rcs_loop_values :
    List (String × NbtTag) → List NbtTagCompound → String → Bool →
      List NbtTagCompound × Bool
  | [], result_list, _, _ => (result_list, false)
  | (_, NbtTag.compound c) :: rest, result_list, key, stop_at_first =>
    let r := McWorldDescriptor.recursive_compound_search c result_list key stop_at_first
    if r.2 && stop_at_first then (r.1, true)
    else McWorldDescriptor.rcs_loop_values rest r.1 key stop_at_first
  | (_, NbtTag.list (.mk _ _ items)) :: rest, result_list, key, stop_at_first =>
    let r := McWorldDescriptor.rcs_loop_items items result_list key stop_at_first
    if r.2 && stop_at_first then (r.1, true)
    else McWorldDescriptor.rcs_loop_values rest r.1 key stop_at_first
  | _ :: rest, result_list, key, stop_at_first =>
    McWorldDescriptor.rcs_loop_values rest result_list key stop_at_first

/-- The `for item in list_option.values.iter()` inner loop: only elements
with `item.ty() == Compound` are recursed into; every other element kind
(including a nested List) falls through the `if` and is skipped. -/
def McWorldDescriptor.rcs_loop_items :
    List NbtTag → List NbtTagCompound → String → Bool →
      List NbtTagCompound × Bool
  | [], result_list, _, _ => (result_list, false)
  | NbtTag.compound c :: rest, result_list, key, stop_at_first =>
    let r := McWorldDescriptor.recursive_compound_search c result_list key stop_at_first
    if r.2 && stop_at_first then (r.1, true)
    else McWorldDescriptor.rcs_loop_items rest r.1 key stop_at_first
  | _ :: rest, result_list, key, stop_at_first =>
    McWorldDescriptor.rcs_loop_items rest result_list key stop_at_first
end

/-- A path is modelled as its textual form. -/
abbrev FsPath := String

/-- `McWorldDescriptor` (`lib.rs` lines 113-119). -/
structure McWorldDescriptor where
  input_path : FsPath
  version : String
  tag_compounds_list : List NbtTagCompound

/-- The `for tag_compound in self.tag_compounds_list.iter()` loop of
`search_compound` (`lib.rs` lines 228-246), followed by the final
emptiness test on the result list. -/
def McWorldDescriptor.search_compound_loop :
    List NbtTagCompound → List NbtTagCompound → String → Bool →
      Bool × List NbtTagCompound
  | [], result_list, _, _ =>
    if result_list.isEmpty then (false, result_list) else (true, result_list)
  | tag_compound :: rest, result_list, key, stop_at_first =>
    let r := McWorldDescriptor.recursive_compound_search tag_compound result_list key stop_at_first
    if r.2 && stop_at_first then (true, r.1)
    else McWorldDescriptor.search_compound_loop rest r.1 key stop_at_first

/-- `McWorldDescriptor::search_compound` (`lib.rs` lines 228-246). -/
def McWorldDescriptor.search_compound (self : McWorldDescriptor)
    (key : String) (stop_at_first : Bool) : Bool × List NbtTagCompound :=
  McWorldDescriptor.search_compound_loop self.tag_compounds_list [] key stop_at_first

/-- `PyMcWorldDescriptor::search_compound` (`lib.rs` lines 89-105):
delegates to the Rust-level search with `stop_at_first = false` and rebuilds
the output list only when `compound_found` is true.  The projection of each
compound to a Python dictionary is the out-of-scope binding layer and is
modelled as the identity on compounds. -/
def PyMcWorldDescriptor.search_compound (self : McWorldDescriptor)
    (key : String) : Bool × List NbtTagCompound :=
  let r := McWorldDescriptor.search_compound self key false
  if r.1 then (true, r.2) else (false, [])

/-! ## Reference recursions for the search

`pruned_search_*` is the search of `lib.rs` re-stated as a plain
append-style preorder collection (no accumulator, no early-stop flag): a
compound whose name matches contributes itself and its children are not
visited; otherwise its Compound children, and the Compound elements sitting
directly inside its List children, are visited in order.  Equality with the
accumulator code is proved below.

`spec_search_*` is the search as the spec's words describe it
(section 4.4): a match is added and traversal continues into its children,
and nested lists recurse naturally. -/
mutual
def pruned_search_compound (c : NbtTagCompound) (key : String) :
    List NbtTagCompound :=
  match c with
  | .mk name vs => if name = key then [c] else pruned_search_values vs key

def pruned_search_values : List (String × NbtTag) → String → List NbtTagCompound
  | [], _ => []
  | (_, NbtTag.compound c) :: rest, key =>
    pruned_search_compound c key ++ pruned_search_values rest key
  | (_, NbtTag.list (.mk _ _ items)) :: rest, key =>
    pruned_search_items items key ++ pruned_search_values rest key
  | _ :: rest, key => pruned_search_values rest key

def pruned_search_items : List NbtTag → String → List NbtTagCompound
  | [], _ => []
  | NbtTag.compound c :: rest, key =>
    pruned_search_compound c key ++ pruned_search_items rest key
  | _ :: rest, key => pruned_search_items rest key
end

/-- Preorder matches over the root compounds, in root order. -/
def roots_pruned_search : List NbtTagCompound → String → List NbtTagCompound
  | [], _ => []
  | c :: rest, key => pruned_search_compound c key ++ roots_pruned_search rest key

mutual
/-- Modelled from the spec's words (section 4.4): "If a compound matches, it
is added to the result list; traversal into its children is still
required", recursing into every Compound child and every Compound element
inside any List-typed child, nested lists recursing naturally.  Used to
compare the spec's demanded result with the code's. -/
def spec_search_compound (c : NbtTagCompound) (key : String) :
    List NbtTagCompound :=
  match c with
  | .mk name vs =>
    (if name = key then [c] else []) ++ spec_search_values vs key

def spec_search_values : List (String × NbtTag) → String → List NbtTagCompound
  | [], _ => []
  | (_, NbtTag.compound c) :: rest, key =>
    spec_search_compound c key ++ spec_search_values rest key
  | (_, NbtTag.list (.mk _ _ items)) :: rest, key =>
    spec_search_items items key ++ spec_search_values rest key
  | _ :: rest, key => spec_search_values rest key

def spec_search_items : List NbtTag → String → List NbtTagCompound
  | [], _ => []
  | NbtTag.compound c :: rest, key =>
    spec_search_compound c key ++ spec_search_items rest key
  | NbtTag.list (.mk _ _ items) :: rest, key =>
    spec_search_items items key ++ spec_search_items rest key
  | _ :: rest, key => spec_search_items rest key
end

/-- The spec-demanded matches over the root compounds, in root order. -/
def roots_spec_search : List NbtTagCompound → String → List NbtTagCompound
  | [], _ => []
  | c :: rest, key => spec_search_compound c key ++ roots_spec_search rest key

/-- The spec-demanded search result over all root compounds. -/
def spec_search_world (w : McWorldDescriptor) (key : String) :
    List NbtTagCompound :=
  roots_spec_search w.tag_compounds_list key

/-! ## File-system environment and path dispatch (`lib.rs` lines 122-226) -/

/-- The `std::io::ErrorKind` values `lib.rs` constructs. -/
inductive IoErrorKind where
  | other
  | invalidInput
deriving DecidableEq, Repr

/-- A `std::io::Error` as built by `lib.rs`: a kind plus its message. -/
structure IoError where
  kind : IoErrorKind
  msg : String
deriving DecidableEq, Repr

/-- `generic_bin::FileType`: the format hint passed to the generic binary
loader (spec section 4.6: `Nbt` or `Schematic`). -/
inductive FileType where
  | nbt
  | schematic
deriving DecidableEq, Repr

/-- The file-system environment a load runs against.  The first three
fields model `std::path` / `std::fs` queries made by `read_input_path`;
`read_dir` yields the entries of a directory, each itself an
`io::Result` as in Rust's `ReadDir` iterator.  The decoder fields model
the crate modules absent from the given sources:
`region_decode p` is `region::RegionFile::new(p)?.to_compounds_list()`,
`generic_bin_decode p ft` is
`generic_bin::GenericBinFile::new(p, ft)?.to_compounds_list()`,
`json_decode p` is `nbt_tag::NbtTagCompound::from_json(p)`, and
`compound_to_json c p` is `c.to_json(p)`. -/
structure FileSys where
  is_dir : FsPath → Bool
  path_exists : FsPath → Bool
  read_dir : FsPath → Except IoError (List (Except IoError FsPath))
  region_decode : FsPath → Except IoError (List NbtTagCompound)
  generic_bin_decode : FsPath → FileType → Except IoError (List NbtTagCompound)
  json_decode : FsPath → Except IoError NbtTagCompound
  compound_to_json : NbtTagCompound → FsPath → Except IoError Unit

/-- Rust's `Path::extension()` on the textual path: the portion of the
final path component after its last `.`, or `None` when the component has
no `.` or only a leading one. -/
def path_extension (p : FsPath) : Option String :=
  let name := (p.data.reverse.takeWhile fun c => c ≠ '/').reverse
  let revName := name.reverse
  let after := revName.takeWhile fun c => c ≠ '.'
  if after.length = revName.length then none
  else if name.length = after.length + 1 then none
  else some (String.mk after.reverse)

/-- `McWorldDescriptor::read_file_format` (`lib.rs` lines 183-213):
extension dispatch for a single file. -/
def McWorldDescriptor.read_file_format (fs : FileSys) (input_path : FsPath) :
    Except IoError (List NbtTagCompound) :=
  match path_extension input_path with
  | some ext =>
    if ext = "mcr" ∨ ext = "mca" then
      fs.region_decode input_path
    else if ext = "nbt" ∨ ext = "litematic" then
      fs.generic_bin_decode input_path FileType.nbt
    else if ext = "json" then
      match fs.json_decode input_path with
      | .ok json_content => .ok [json_content]
      | .error e => .error e
    else .error ⟨.invalidInput, "Invalid file extension"⟩
  | none => .error ⟨.invalidInput, "File without extension"⟩

/-- The `for entry in entries` loop of `read_input_path` (`lib.rs` lines
164-169): an `Err` entry is silently skipped by `if let Ok(entry)`; each
`Ok` entry path is passed to `read_file_format`, whose error propagates
through the `?` operator, aborting the whole loop; on success its
compounds are appended to the accumulated list. -/
def McWorldDescriptor.read_dir_entries (fs : FileSys) :
    List (Except IoError FsPath) → Except IoError (List NbtTagCompound)
  | [] => .ok []
  | .error _ :: rest => McWorldDescriptor.read_dir_entries fs rest
  | .ok file_path :: rest =>
    match McWorldDescriptor.read_file_format fs file_path with
    | .error e => .error e
    | .ok cs =>
      match McWorldDescriptor.read_dir_entries fs rest with
      | .error e => .error e
      | .ok rest_cs => .ok (cs ++ rest_cs)

/-- `McWorldDescriptor::read_input_path` (`lib.rs` lines 140-181). -/
def McWorldDescriptor.read_input_path (fs : FileSys) (input_path : FsPath) :
    Except IoError (List NbtTagCompound) :=
  if fs.is_dir input_path then
    if !fs.path_exists input_path then
      .error ⟨.other, "World Directory does not exist"⟩
    else
      let region_path := input_path ++ "/region"
      if !fs.path_exists region_path || !fs.is_dir region_path then
        .error ⟨.other, "SubDir './region' does not exist"⟩
      else
        match fs.read_dir region_path with
        | .ok entries => McWorldDescriptor.read_dir_entries fs entries
        | .error _ => .error ⟨.other, "Error in reading the region files"⟩
  else
    McWorldDescriptor.read_file_format fs input_path

/-- `McWorldDescriptor::new` (`lib.rs` lines 122-138): on success of
`read_input_path` builds the descriptor with version `"0.0.0"`; on any
failure the original error is dropped by the `if let Ok(..)` and a fresh
generic error is returned. -/
def McWorldDescriptor.new (fs : FileSys) (input_path : FsPath) :
    Except IoError McWorldDescriptor :=
  match McWorldDescriptor.read_input_path fs input_path with
  | .ok nbt_tag_compounds_list =>
    .ok { input_path := input_path
          version := "0.0.0"
          tag_compounds_list := nbt_tag_compounds_list }
  | .error _ =>
    .error ⟨.other, "McWorldDescriptor not created because of input file error"⟩

/-- `McWorldDescriptor::to_json` (`lib.rs` lines 219-221):
`self.tag_compounds_list.get(0).unwrap().to_json(path)`.  The `unwrap` of
a `None` first element is a panic, modelled as the `none` outcome; a
`some` outcome is the `io::Result` the method returns. -/
def McWorldDescriptor.to_json (fs : FileSys) (self : McWorldDescriptor)
    (path : FsPath) : Option (Except IoError Unit) :=
  match self.tag_compounds_list.get? 0 with
  | none => none
  | some c => some (fs.compound_to_json c path)

mutual
theorem rcs_false_eq (c : NbtTagCompound) (res : List NbtTagCompound) (key : String) :
    McWorldDescriptor.recursive_compound_search c res key false
      = (res ++ pruned_search_compound c key, decide (c.name = key)) := by
  match c with
  | .mk name vs =>
    by_cases h : name = key
    · simp [McWorldDescriptor.recursive_compound_search, pruned_search_compound,
        NbtTagCompound.name, h]
    · simp [McWorldDescriptor.recursive_compound_search, pruned_search_compound,
        NbtTagCompound.name, h, loop_values_false_eq vs res key]

theorem loop_values_false_eq (vs : List (String × NbtTag))
    (res : List NbtTagCompound) (key : String) :
    McWorldDescriptor.rcs_loop_values vs res key false
      = (res ++ pruned_search_values vs key, false) := by
  match vs with
  | [] => simp [McWorldDescriptor.rcs_loop_values, pruned_search_values]
  | (n, t) :: rest =>
    cases t with
    | compound c =>
      simp [McWorldDescriptor.rcs_loop_values, pruned_search_values,
        rcs_false_eq c res key, loop_values_false_eq rest (res ++ pruned_search_compound c key) key,
        List.append_assoc]
    | list l =>
      match l with
      | .mk ln lt items =>
        simp [McWorldDescriptor.rcs_loop_values, pruned_search_values,
          loop_items_false_eq items res key,
          loop_values_false_eq rest (res ++ pruned_search_items items key) key,
          List.append_assoc]
    | tag_end => simp [McWorldDescriptor.rcs_loop_values, pruned_search_values, loop_values_false_eq rest res key]
    | byte nm v => simp [McWorldDescriptor.rcs_loop_values, pruned_search_values, loop_values_false_eq rest res key]
    | short nm v => simp [McWorldDescriptor.rcs_loop_values, pruned_search_values, loop_values_false_eq rest res key]
    | int nm v => simp [McWorldDescriptor.rcs_loop_values, pruned_search_values, loop_values_false_eq rest res key]
    | long nm v => simp [McWorldDescriptor.rcs_loop_values, pruned_search_values, loop_values_false_eq rest res key]
    | float nm v => simp [McWorldDescriptor.rcs_loop_values, pruned_search_values, loop_values_false_eq rest res key]
    | double nm v => simp [McWorldDescriptor.rcs_loop_values, pruned_search_values, loop_values_false_eq rest res key]
    | byte_array nm v => simp [McWorldDescriptor.rcs_loop_values, pruned_search_values, loop_values_false_eq rest res key]
    | string nm v => simp [McWorldDescriptor.rcs_loop_values, pruned_search_values, loop_values_false_eq rest res key]
    | int_array nm v => simp [McWorldDescriptor.rcs_loop_values, pruned_search_values, loop_values_false_eq rest res key]
    | long_array nm v => simp [McWorldDescriptor.rcs_loop_values, pruned_search_values, loop_values_false_eq rest res key]

theorem loop_items_false_eq (xs : List NbtTag)
    (res : List NbtTagCompound) (key : String) :
    McWorldDescriptor.rcs_loop_items xs res key false
      = (res ++ pruned_search_items xs key, false) := by
  match xs with
  | [] => simp [McWorldDescriptor.rcs_loop_items, pruned_search_items]
  | t :: rest =>
    cases t with
    | compound c =>
      simp [McWorldDescriptor.rcs_loop_items, pruned_search_items,
        rcs_false_eq c res key, loop_items_false_eq rest (res ++ pruned_search_compound c key) key,
        List.append_assoc]
    | list l => simp [McWorldDescriptor.rcs_loop_items, pruned_search_items, loop_items_false_eq rest res key]
    | tag_end => simp [McWorldDescriptor.rcs_loop_items, pruned_search_items, loop_items_false_eq rest res key]
    | byte nm v => simp [McWorldDescriptor.rcs_loop_items, pruned_search_items, loop_items_false_eq rest res key]
    | short nm v => simp [McWorldDescriptor.rcs_loop_items, pruned_search_items, loop_items_false_eq rest res key]
    | int nm v => simp [McWorldDescriptor.rcs_loop_items, pruned_search_items, loop_items_false_eq rest res key]
    | long nm v => simp [McWorldDescriptor.rcs_loop_items, pruned_search_items, loop_items_false_eq rest res key]
    | float nm v => simp [McWorldDescriptor.rcs_loop_items, pruned_search_items, loop_items_false_eq rest res key]
    | double nm v => simp [McWorldDescriptor.rcs_loop_items, pruned_search_items, loop_items_false_eq rest res key]
    | byte_array nm v => simp [McWorldDescriptor.rcs_loop_items, pruned_search_items, loop_items_false_eq rest res key]
    | string nm v => simp [McWorldDescriptor.rcs_loop_items, pruned_search_items, loop_items_false_eq rest res key]
    | int_array nm v => simp [McWorldDescriptor.rcs_loop_items, pruned_search_items, loop_items_false_eq rest res key]
    | long_array nm v => simp [McWorldDescriptor.rcs_loop_items, pruned_search_items, loop_items_false_eq rest res key]
end

/-! With `stop_at_first = true` the search stops right after the first
match: the result is the accumulator extended with the head of the pruned
preorder match list, when one exists. -/
mutual
theorem rcs_true_eq (c : NbtTagCompound) (res : List NbtTagCompound) (key : String) :
    McWorldDescriptor.recursive_compound_search c res key true
      = match pruned_search_compound c key with
        | [] => (res, false)
        | m :: _ => (res ++ [m], true) := by
  match c with
  | .mk name vs =>
    by_cases h : name = key
    · simp [McWorldDescriptor.recursive_compound_search, pruned_search_compound, h]
    · simp only [McWorldDescriptor.recursive_compound_search, pruned_search_compound, h,
        if_false, loop_values_true_eq vs res key]

theorem loop_values_true_eq (vs : List (String × NbtTag))
    (res : List NbtTagCompound) (key : String) :
    McWorldDescriptor.rcs_loop_values vs res key true
      = match pruned_search_values vs key with
        | [] => (res, false)
        | m :: _ => (res ++ [m], true) := by
  match vs with
  | [] => simp [McWorldDescriptor.rcs_loop_values, pruned_search_values]
  | (n, t) :: rest =>
    cases t with
    | compound c =>
      cases hp : pruned_search_compound c key with
      | nil =>
        simp [McWorldDescriptor.rcs_loop_values, pruned_search_values,
          rcs_true_eq c res key, hp, loop_values_true_eq rest res key]
      | cons m ms =>
        simp [McWorldDescriptor.rcs_loop_values, pruned_search_values,
          rcs_true_eq c res key, hp]
    | list l =>
      match l with
      | .mk ln lt items =>
        cases hp : pruned_search_items items key with
        | nil =>
          simp [McWorldDescriptor.rcs_loop_values, pruned_search_values,
            loop_items_true_eq items res key, hp, loop_values_true_eq rest res key]
        | cons m ms =>
          simp [McWorldDescriptor.rcs_loop_values, pruned_search_values,
            loop_items_true_eq items res key, hp]
    | tag_end => simp [McWorldDescriptor.rcs_loop_values, pruned_search_values, loop_values_true_eq rest res key]
    | byte nm v => simp [McWorldDescriptor.rcs_loop_values, pruned_search_values, loop_values_true_eq rest res key]
    | short nm v => simp [McWorldDescriptor.rcs_loop_values, pruned_search_values, loop_values_true_eq rest res key]
    | int nm v => simp [McWorldDescriptor.rcs_loop_values, pruned_search_values, loop_values_true_eq rest res key]
    | long nm v => simp [McWorldDescriptor.rcs_loop_values, pruned_search_values, loop_values_true_eq rest res key]
    | float nm v => simp [McWorldDescriptor.rcs_loop_values, pruned_search_values, loop_values_true_eq rest res key]
    | double nm v => simp [McWorldDescriptor.rcs_loop_values, pruned_search_values, loop_values_true_eq rest res key]
    | byte_array nm v => simp [McWorldDescriptor.rcs_loop_values, pruned_search_values, loop_values_true_eq rest res key]
    | string nm v => simp [McWorldDescriptor.rcs_loop_values, pruned_search_values, loop_values_true_eq rest res key]
    | int_array nm v => simp [McWorldDescriptor.rcs_loop_values, pruned_search_values, loop_values_true_eq rest res key]
    | long_array nm v => simp [McWorldDescriptor.rcs_loop_values, pruned_search_values, loop_values_true_eq rest res key]

theorem loop_items_true_eq (xs : List NbtTag)
    (res : List NbtTagCompound) (key : String) :
    McWorldDescriptor.rcs_loop_items xs res key true
      = match pruned_search_items xs key with
        | [] => (res, false)
        | m :: _ => (res ++ [m], true) := by
  match xs with
  | [] => simp [McWorldDescriptor.rcs_loop_items, pruned_search_items]
  | t :: rest =>
    cases t with
    | compound c =>
      cases hp : pruned_search_compound c key with
      | nil =>
        simp [McWorldDescriptor.rcs_loop_items, pruned_search_items,
          rcs_true_eq c res key, hp, loop_items_true_eq rest res key]
      | cons m ms =>
        simp [McWorldDescriptor.rcs_loop_items, pruned_search_items,
          rcs_true_eq c res key, hp]
    | list l => simp [McWorldDescriptor.rcs_loop_items, pruned_search_items, loop_items_true_eq rest res key]
    | tag_end => simp [McWorldDescriptor.rcs_loop_items, pruned_search_items, loop_items_true_eq rest res key]
    | byte nm v => simp [McWorldDescriptor.rcs_loop_items, pruned_search_items, loop_items_true_eq rest res key]
    | short nm v => simp [McWorldDescriptor.rcs_loop_items, pruned_search_items, loop_items_true_eq rest res key]
    | int nm v => simp [McWorldDescriptor.rcs_loop_items, pruned_search_items, loop_items_true_eq rest res key]
    | long nm v => simp [McWorldDescriptor.rcs_loop_items, pruned_search_items, loop_items_true_eq rest res key]
    | float nm v => simp [McWorldDescriptor.rcs_loop_items, pruned_search_items, loop_items_true_eq rest res key]
    | double nm v => simp [McWorldDescriptor.rcs_loop_items, pruned_search_items, loop_items_true_eq rest res key]
    | byte_array nm v => simp [McWorldDescriptor.rcs_loop_items, pruned_search_items, loop_items_true_eq rest res key]
    | string nm v => simp [McWorldDescriptor.rcs_loop_items, pruned_search_items, loop_items_true_eq rest res key]
    | int_array nm v => simp [McWorldDescriptor.rcs_loop_items, pruned_search_items, loop_items_true_eq rest res key]
    | long_array nm v => simp [McWorldDescriptor.rcs_loop_items, pruned_search_items, loop_items_true_eq rest res key]
end

theorem search_loop_false_eq (cs : List NbtTagCompound)
    (res : List NbtTagCompound) (key : String) :
    McWorldDescriptor.search_compound_loop cs res key false
      = (!(res ++ roots_pruned_search cs key).isEmpty,
         res ++ roots_pruned_search cs key) := by
  induction cs generalizing res with
  | nil =>
    cases hre : res.isEmpty <;>
      simp_all [McWorldDescriptor.search_compound_loop, roots_pruned_search]
  | cons c rest ih =>
    simp [McWorldDescriptor.search_compound_loop, roots_pruned_search,
      rcs_false_eq c res key, ih, List.append_assoc]

theorem search_loop_true_eq (cs : List NbtTagCompound)
    (res : List NbtTagCompound) (key : String) :
    McWorldDescriptor.search_compound_loop cs res key true
      = match roots_pruned_search cs key with
        | [] => (!res.isEmpty, res)
        | m :: _ => (true, res ++ [m]) := by
  induction cs generalizing res with
  | nil =>
    cases hre : res.isEmpty <;>
      simp_all [McWorldDescriptor.search_compound_loop, roots_pruned_search]
  | cons c rest ih =>
    cases hp : pruned_search_compound c key with
    | nil =>
      simp [McWorldDescriptor.search_compound_loop, roots_pruned_search,
        rcs_true_eq c res key, hp, ih]
    | cons m ms =>
      simp [McWorldDescriptor.search_compound_loop, roots_pruned_search,
        rcs_true_eq c res key, hp]

/-- The full search (`stop_at_first = false`) is exactly the pruned
preorder match list, with the `found` flag its non-emptiness. -/
theorem search_compound_false_eq (w : McWorldDescriptor) (key : String) :
    McWorldDescriptor.search_compound w key false
      = (!(roots_pruned_search w.tag_compounds_list key).isEmpty,
         roots_pruned_search w.tag_compounds_list key) := by
  simpa using search_loop_false_eq w.tag_compounds_list [] key

/-- The first-match search (`stop_at_first = true`). -/
theorem search_compound_true_eq (w : McWorldDescriptor) (key : String) :
    McWorldDescriptor.search_compound w key true
      = match roots_pruned_search w.tag_compounds_list key with
        | [] => (false, [])
        | m :: _ => (true, [m]) := by
  have h := search_loop_true_eq w.tag_compounds_list [] key
  cases hp : roots_pruned_search w.tag_compounds_list key <;>
    simp_all [McWorldDescriptor.search_compound]

/-! Every collected compound's own name equals the key. -/
mutual
theorem pruned_compound_sound (c : NbtTagCompound) (key : String) :
    ∀ x ∈ pruned_search_compound c key, x.name = key := by
  match c with
  | .mk name vs =>
    by_cases h : name = key
    · simp [pruned_search_compound, h, NbtTagCompound.name]
    · simpa [pruned_search_compound, h] using pruned_values_sound vs key

theorem pruned_values_sound (vs : List (String × NbtTag)) (key : String) :
    ∀ x ∈ pruned_search_values vs key, x.name = key := by
  match vs with
  | [] => simp [pruned_search_values]
  | (n, t) :: rest =>
    cases t with
    | compound c =>
      intro x hx
      rw [pruned_search_values] at hx
      rcases List.mem_append.mp hx with hx | hx
      · exact pruned_compound_sound c key x hx
      · exact pruned_values_sound rest key x hx
    | list l =>
      match l with
      | .mk ln lt items =>
        intro x hx
        rw [pruned_search_values] at hx
        rcases List.mem_append.mp hx with hx | hx
        · exact pruned_items_sound items key x hx
        · exact pruned_values_sound rest key x hx
    | tag_end => simpa [pruned_search_values] using pruned_values_sound rest key
    | byte nm v => simpa [pruned_search_values] using pruned_values_sound rest key
    | short nm v => simpa [pruned_search_values] using pruned_values_sound rest key
    | int nm v => simpa [pruned_search_values] using pruned_values_sound rest key
    | long nm v => simpa [pruned_search_values] using pruned_values_sound rest key
    | float nm v => simpa [pruned_search_values] using pruned_values_sound rest key
    | double nm v => simpa [pruned_search_values] using pruned_values_sound rest key
    | byte_array nm v => simpa [pruned_search_values] using pruned_values_sound rest key
    | string nm v => simpa [pruned_search_values] using pruned_values_sound rest key
    | int_array nm v => simpa [pruned_search_values] using pruned_values_sound rest key
    | long_array nm v => simpa [pruned_search_values] using pruned_values_sound rest key

theorem pruned_items_sound (xs : List NbtTag) (key : String) :
    ∀ x ∈ pruned_search_items xs key, x.name = key := by
  match xs with
  | [] => simp [pruned_search_items]
  | t :: rest =>
    cases t with
    | compound c =>
      intro x hx
      rw [pruned_search_items] at hx
      rcases List.mem_append.mp hx with hx | hx
      · exact pruned_compound_sound c key x hx
      · exact pruned_items_sound rest key x hx
    | list l => simpa [pruned_search_items] using pruned_items_sound rest key
    | tag_end => simpa [pruned_search_items] using pruned_items_sound rest key
    | byte nm v => simpa [pruned_search_items] using pruned_items_sound rest key
    | short nm v => simpa [pruned_search_items] using pruned_items_sound rest key
    | int nm v => simpa [pruned_search_items] using pruned_items_sound rest key
    | long nm v => simpa [pruned_search_items] using pruned_items_sound rest key
    | float nm v => simpa [pruned_search_items] using pruned_items_sound rest key
    | double nm v => simpa [pruned_search_items] using pruned_items_sound rest key
    | byte_array nm v => simpa [pruned_search_items] using pruned_items_sound rest key
    | string nm v => simpa [pruned_search_items] using pruned_items_sound rest key
    | int_array nm v => simpa [pruned_search_items] using pruned_items_sound rest key
    | long_array nm v => simpa [pruned_search_items] using pruned_items_sound rest key
end

theorem roots_pruned_sound (cs : List NbtTagCompound) (key : String) :
    ∀ x ∈ roots_pruned_search cs key, x.name = key := by
  induction cs with
  | nil => simp [roots_pruned_search]
  | cons c rest ih =>
    intro x hx
    rw [roots_pruned_search] at hx
    rcases List.mem_append.mp hx with hx | hx
    · exact pruned_compound_sound c key x hx
    · exact ih x hx

/-- The contribution of a single child entry to the search over a
compound's children: a Compound child is searched, a List child has its
elements searched one level deep, everything else contributes nothing. -/
def pruned_child_tag : NbtTag → String → List NbtTagCompound
  | .compound c, key => pruned_search_compound c key
  | .list (.mk _ _ items), key => pruned_search_items items key
  | _, _ => []

/-- The contribution of a single List element: only elements that are
themselves Compounds are searched; in particular a nested List element
contributes nothing. -/
def pruned_elem_tag : NbtTag → String → List NbtTagCompound
  | .compound c, key => pruned_search_compound c key
  | _, _ => []

theorem pruned_values_cons (n : String) (t : NbtTag)
    (rest : List (String × NbtTag)) (key : String) :
    pruned_search_values ((n, t) :: rest) key
      = pruned_child_tag t key ++ pruned_search_values rest key := by
  cases t
  case compound c => simp [pruned_search_values, pruned_child_tag]
  case list l => cases l with
    | mk a b it => simp [pruned_search_values, pruned_child_tag]
  all_goals simp [pruned_search_values, pruned_child_tag]

theorem pruned_items_cons (t : NbtTag) (rest : List NbtTag) (key : String) :
    pruned_search_items (t :: rest) key
      = pruned_elem_tag t key ++ pruned_search_items rest key := by
  cases t
  case compound c => simp [pruned_search_items, pruned_elem_tag]
  all_goals simp [pruned_search_items, pruned_elem_tag]

theorem pruned_values_append (l1 l2 : List (String × NbtTag)) (key : String) :
    pruned_search_values (l1 ++ l2) key
      = pruned_search_values l1 key ++ pruned_search_values l2 key := by
  induction l1 with
  | nil => simp [pruned_search_values]
  | cons e rest ih =>
    obtain ⟨n, t⟩ := e
    simp [pruned_values_cons, ih, List.append_assoc]

theorem pruned_items_append (l1 l2 : List NbtTag) (key : String) :
    pruned_search_items (l1 ++ l2) key
      = pruned_search_items l1 key ++ pruned_search_items l2 key := by
  induction l1 with
  | nil => simp [pruned_search_items]
  | cons t rest ih =>
    simp [pruned_items_cons, ih, List.append_assoc]

/-! ## Concrete worlds used as counterexamples -/

/-- A compound named `a` with no children. -/
def innerA : NbtTagCompound := .mk "a" []

/-- A compound named `a` whose only child is another compound named `a`. -/
def outerA : NbtTagCompound := .mk "a" [("a", NbtTag.compound innerA)]

/-- A world whose single root is `outerA`. -/
def wC1 : McWorldDescriptor :=
  { input_path := "w", version := "0.0.0", tag_compounds_list := [outerA] }

/-- A compound named `k` with no children. -/
def innerK : NbtTagCompound := .mk "k" []

/-- A root compound whose child `xs` is a List containing a nested List
which in turn contains the compound `innerK`. -/
def rootNested : NbtTagCompound :=
  .mk "root"
    [("xs", NbtTag.list (.mk "xs" .List
      [NbtTag.list (.mk "" .Compound [NbtTag.compound innerK])]))]

/-- A world whose single root is `rootNested`. -/
def wC5 : McWorldDescriptor :=
  { input_path := "w", version := "0.0.0", tag_compounds_list := [rootNested] }

/-! ## Claims C1, C4, C5, C8: the compound search -/

/-- C1, counterexample: in `wC1` the inner compound named `"a"` is a direct
Compound child of the (matching) root compound named `"a"`, so the spec's
full search returns both; but `search_compound("a", stop_at_first=false)`
returns only the root, because the code returns right after a match and
never visits the matching compound's own children. -/
theorem C1_counterexample :
    (McWorldDescriptor.search_compound wC1 "a" false).2 = [outerA] ∧
    spec_search_world wC1 "a" = [outerA, innerA] ∧
    innerA.name = "a" ∧ outerA.values = [("a", NbtTag.compound innerA)] ∧
    innerA ≠ outerA := by
  refine ⟨?_, ?_, rfl, rfl, ?_⟩
  · simp [search_compound_false_eq, wC1, roots_pruned_search,
      pruned_search_compound, outerA]
  · simp [spec_search_world, wC1, roots_spec_search, spec_search_compound,
      spec_search_values, spec_search_items, outerA, innerA]
  · simp [innerA, outerA]

/-- C1, amended: `search_compound(k, stop_at_first=false)` returns, in
depth-first preorder, exactly the reachable compounds whose name equals `k`
and on whose access path no earlier compound already matched `k`
(`roots_pruned_search`: a matching compound is emitted and its children are
not traversed; recursion goes through Compound children and Compound
elements directly inside List children); every returned compound's name
equals `k`. -/
theorem C1_search_preorder (w : McWorldDescriptor) (key : String) :
    (McWorldDescriptor.search_compound w key false).2
        = roots_pruned_search w.tag_compounds_list key ∧
    ((McWorldDescriptor.search_compound w key false).2.all
        fun c => c.name == key) = true := by
  constructor
  · simp [search_compound_false_eq]
  · rw [search_compound_false_eq]
    simp only [List.all_eq_true, beq_iff_eq]
    exact fun c hc => roots_pruned_sound _ key c hc

/-- C4: searching with `stop_at_first = true` returns the length-one prefix
of the full-search result when a match exists (so length `min 1 n`), the
empty list otherwise, and the same `found` flag. -/
theorem C4_stop_at_first (w : McWorldDescriptor) (key : String) :
    (McWorldDescriptor.search_compound w key true).2
        = (McWorldDescriptor.search_compound w key false).2.take 1 ∧
    (McWorldDescriptor.search_compound w key true).2.length
        = min 1 (McWorldDescriptor.search_compound w key false).2.length ∧
    (McWorldDescriptor.search_compound w key true).2
        <+: (McWorldDescriptor.search_compound w key false).2 ∧
    (McWorldDescriptor.search_compound w key true).1
        = (McWorldDescriptor.search_compound w key false).1 := by
  rw [search_compound_true_eq, search_compound_false_eq]
  cases hp : roots_pruned_search w.tag_compounds_list key with
  | nil => simp
  | cons m ms =>
    refine ⟨by simp, by simp [Nat.min_def], ⟨ms, by simp⟩, by simp⟩

/-- C5, counterexample: in `wC5` the compound `innerK` (named `"k"`) sits
inside a List that is itself an element of the List child `xs`; the spec's
search (nested lists recursing naturally) finds it, but the code's search
returns nothing: elements of a List that are themselves Lists are skipped. -/
theorem C5_counterexample :
    McWorldDescriptor.search_compound wC5 "k" false = (false, []) ∧
    spec_search_world wC5 "k" = [innerK] := by
  constructor
  · simp [search_compound_false_eq, wC5, roots_pruned_search,
      pruned_search_compound, pruned_search_values, pruned_search_items,
      rootNested]
  · simp [spec_search_world, wC5, roots_spec_search, spec_search_compound,
      spec_search_values, spec_search_items, rootNested, innerK]

/-- C5, amended: the search recurses into (a) every Compound child and
(b) every Compound element sitting directly inside a List child, in order;
but a List element of a List is skipped, so nested lists are not recursed
into.  Stated on the preorder match list `roots_pruned_search`, which the
first conjunct identifies with the code's full search result. -/
theorem C5_recursion_structure (w : McWorldDescriptor) (key : String)
    (es1 es2 : List (String × NbtTag)) (n nm : String) (ety : NbtTagType)
    (child : NbtTagCompound) (inner : NbtTagList) (xs1 xs2 : List NbtTag) :
    (McWorldDescriptor.search_compound w key false).2
        = roots_pruned_search w.tag_compounds_list key ∧
    pruned_search_values (es1 ++ (n, NbtTag.compound child) :: es2) key
        = pruned_search_values es1 key ++ pruned_search_compound child key
            ++ pruned_search_values es2 key ∧
    pruned_search_values (es1 ++ (n, NbtTag.list (.mk nm ety xs1)) :: es2) key
        = pruned_search_values es1 key ++ pruned_search_items xs1 key
            ++ pruned_search_values es2 key ∧
    pruned_search_items (xs1 ++ NbtTag.compound child :: xs2) key
        = pruned_search_items xs1 key ++ pruned_search_compound child key
            ++ pruned_search_items xs2 key ∧
    pruned_search_items (xs1 ++ NbtTag.list inner :: xs2) key
        = pruned_search_items xs1 key ++ pruned_search_items xs2 key := by
  refine ⟨by simp [search_compound_false_eq], ?_, ?_, ?_, ?_⟩ <;>
    cases inner <;>
      simp [pruned_values_append, pruned_items_append, pruned_values_cons,
        pruned_items_cons, pruned_child_tag, pruned_elem_tag,
        List.append_assoc]

/-- C8: the Python-facing `search_compound` delegates to the Rust search
with `stop_at_first = false`, and its `found` flag is true exactly when the
returned compound list is non-empty. -/
theorem C8_py_search (w : McWorldDescriptor) (key : String) :
    PyMcWorldDescriptor.search_compound w key
        = McWorldDescriptor.search_compound w key false ∧
    ((PyMcWorldDescriptor.search_compound w key).1 = true
        ↔ (PyMcWorldDescriptor.search_compound w key).2 ≠ []) := by
  have h := search_compound_false_eq w key
  cases hp : roots_pruned_search w.tag_compounds_list key with
  | nil =>
    rw [hp] at h
    constructor
    · simp [PyMcWorldDescriptor.search_compound, h]
    · simp [PyMcWorldDescriptor.search_compound, h]
  | cons m ms =>
    rw [hp] at h
    constructor
    · simp [PyMcWorldDescriptor.search_compound, h]
    · simp [PyMcWorldDescriptor.search_compound, h]

/-! ## Helper lemmas for the directory loop -/

theorem read_dir_entries_append (fs : FileSys)
    (l1 l2 : List (Except IoError FsPath)) :
    McWorldDescriptor.read_dir_entries fs (l1 ++ l2)
      = match McWorldDescriptor.read_dir_entries fs l1 with
        | .error e => .error e
        | .ok cs =>
          match McWorldDescriptor.read_dir_entries fs l2 with
          | .error e => .error e
          | .ok cs2 => .ok (cs ++ cs2) := by
  induction l1 with
  | nil =>
    cases h2 : McWorldDescriptor.read_dir_entries fs l2 <;>
      simp [McWorldDescriptor.read_dir_entries, h2]
  | cons x rest ih =>
    cases x with
    | error e => simpa [McWorldDescriptor.read_dir_entries] using ih
    | ok q =>
      cases hq : McWorldDescriptor.read_file_format fs q with
      | error e => simp [McWorldDescriptor.read_dir_entries, hq]
      | ok cs =>
        cases hr : McWorldDescriptor.read_dir_entries fs rest with
        | error e =>
          rw [hr] at ih
          simp [McWorldDescriptor.read_dir_entries, hq, hr, ih]
        | ok cs2 =>
          rw [hr] at ih
          cases h2 : McWorldDescriptor.read_dir_entries fs l2 <;>
            simp_all [McWorldDescriptor.read_dir_entries, hq]

theorem new_error_of_read_error (fs : FileSys) (p : FsPath)
    (h : ∃ e, McWorldDescriptor.read_input_path fs p = .error e) :
    McWorldDescriptor.new fs p
      = .error ⟨.other, "McWorldDescriptor not created because of input file error"⟩ := by
  obtain ⟨e, he⟩ := h
  simp [McWorldDescriptor.new, he]

/-! ## Concrete file systems used as counterexamples and witnesses -/

/-- The root compound of the healthy region file in `fsC2`. -/
def cRegion1 : NbtTagCompound := .mk "chunk1" []

/-- A directory world whose `region` folder holds two `.mca` files: the
first fails to decode, the second decodes to `[cRegion1]`. -/
def fsC2 : FileSys where
  is_dir p := p == "world" || p == "world/region"
  path_exists p := p == "world" || p == "world/region"
  read_dir p :=
    if p == "world/region" then
      .ok [.ok "world/region/r0.mca", .ok "world/region/r1.mca"]
    else .error ⟨.other, "read_dir failed"⟩
  region_decode p :=
    if p == "world/region/r1.mca" then .ok [cRegion1]
    else .error ⟨.other, "corrupt region file"⟩
  generic_bin_decode _ _ := .error ⟨.other, "not a binary nbt file"⟩
  json_decode _ := .error ⟨.other, "not a json file"⟩
  compound_to_json _ _ := .ok ()

/-- A directory world whose `region` folder is empty. -/
def fsEmptyRegion : FileSys where
  is_dir p := p == "world" || p == "world/region"
  path_exists p := p == "world" || p == "world/region"
  read_dir p :=
    if p == "world/region" then .ok [] else .error ⟨.other, "read_dir failed"⟩
  region_decode _ := .error ⟨.other, "corrupt region file"⟩
  generic_bin_decode _ _ := .error ⟨.other, "not a binary nbt file"⟩
  json_decode _ := .error ⟨.other, "not a json file"⟩
  compound_to_json _ _ := .ok ()

/-- A file system in which every path is a plain file and every decoder
fails; used with the unsupported-extension file `a.xyz`. -/
def fsBadExt : FileSys where
  is_dir _ := false
  path_exists p := p == "a.xyz"
  read_dir _ := .error ⟨.other, "read_dir failed"⟩
  region_decode _ := .error ⟨.other, "corrupt region file"⟩
  generic_bin_decode _ _ := .error ⟨.other, "not a binary nbt file"⟩
  json_decode _ := .error ⟨.other, "not a json file"⟩
  compound_to_json _ _ := .ok ()

/-- A directory world whose `region` folder holds one `.txt` file. -/
def fsC6 : FileSys where
  is_dir p := p == "world" || p == "world/region"
  path_exists p := p == "world" || p == "world/region"
  read_dir p :=
    if p == "world/region" then .ok [.ok "world/region/a.txt"]
    else .error ⟨.other, "read_dir failed"⟩
  region_decode _ := .error ⟨.other, "corrupt region file"⟩
  generic_bin_decode _ _ := .error ⟨.other, "not a binary nbt file"⟩
  json_decode _ := .error ⟨.other, "not a json file"⟩
  compound_to_json _ _ := .ok ()

/-- The root compound of the `.nbt` file in `fsC6b`. -/
def cNbt : NbtTagCompound := .mk "nbt_root" []

/-- A directory world whose `region` folder holds one `.nbt` file, which
the generic binary loader decodes to `[cNbt]` (the region decoder would
fail on it). -/
def fsC6b : FileSys where
  is_dir p := p == "world" || p == "world/region"
  path_exists p := p == "world" || p == "world/region"
  read_dir p :=
    if p == "world/region" then .ok [.ok "world/region/a.nbt"]
    else .error ⟨.other, "read_dir failed"⟩
  region_decode _ := .error ⟨.other, "corrupt region file"⟩
  generic_bin_decode p ft :=
    if p == "world/region/a.nbt" && ft == FileType.nbt then .ok [cNbt]
    else .error ⟨.other, "not a binary nbt file"⟩
  json_decode _ := .error ⟨.other, "not a json file"⟩
  compound_to_json _ _ := .ok ()

/-- A file system with a directory `world` that has no `region` subfolder,
and in which every decoder fails on every path (no path outside `world`
exists). -/
def fsMissing : FileSys where
  is_dir p := p == "world"
  path_exists p := p == "world"
  read_dir _ := .error ⟨.other, "read_dir failed"⟩
  region_decode _ := .error ⟨.other, "file not found"⟩
  generic_bin_decode _ _ := .error ⟨.other, "file not found"⟩
  json_decode _ := .error ⟨.other, "file not found"⟩
  compound_to_json _ _ := .ok ()

/-! ## Claims C2, C3, C6, C7, C9, C10: loading and dispatch -/

/-- C2, counterexample: in `fsC2` the first region file fails to decode and
the second decodes fine, yet `read_input_path` returns the first file's
error — the failure is not isolated, and the healthy file's root compounds
are not accumulated. -/
theorem C2_counterexample :
    McWorldDescriptor.read_input_path fsC2 "world"
      = .error ⟨.other, "corrupt region file"⟩ ∧
    fsC2.region_decode "world/region/r1.mca" = .ok [cRegion1] := ⟨rfl, rfl⟩

/-- C2, amended: under a directory input, the failure of a single file in
the `region` subfolder is not skipped: the `?` operator propagates the
file's error, aborting the whole load; `new` then reports its generic
error.  Files listed before the failing one must themselves have decoded
(`hpre`). -/
theorem C2_directory_failure_aborts (fs : FileSys) (p bad : FsPath)
    (pre rest : List (Except IoError FsPath)) (lpre : List NbtTagCompound)
    (e : IoError)
    (hdir : fs.is_dir p = true) (hex : fs.path_exists p = true)
    (hrex : fs.path_exists (p ++ "/region") = true)
    (hrdir : fs.is_dir (p ++ "/region") = true)
    (hrd : fs.read_dir (p ++ "/region") = .ok (pre ++ .ok bad :: rest))
    (hpre : McWorldDescriptor.read_dir_entries fs pre = .ok lpre)
    (hbad : McWorldDescriptor.read_file_format fs bad = .error e) :
    McWorldDescriptor.read_input_path fs p = .error e ∧
    McWorldDescriptor.new fs p
      = .error ⟨.other, "McWorldDescriptor not created because of input file error"⟩ := by
  have hmain : McWorldDescriptor.read_input_path fs p = .error e := by
    simp [McWorldDescriptor.read_input_path, hdir, hex, hrex, hrdir, hrd,
      read_dir_entries_append, hpre, McWorldDescriptor.read_dir_entries, hbad]
  exact ⟨hmain, new_error_of_read_error fs p ⟨e, hmain⟩⟩

/-- C2, witness at `fsC2`. -/
theorem C2_directory_failure_aborts_witness :
    McWorldDescriptor.read_input_path fsC2 "world"
      = .error ⟨.other, "corrupt region file"⟩ ∧
    McWorldDescriptor.new fsC2 "world"
      = .error ⟨.other, "McWorldDescriptor not created because of input file error"⟩ :=
  C2_directory_failure_aborts fsC2 "world" "world/region/r0.mca"
    [] [.ok "world/region/r1.mca"] [] ⟨.other, "corrupt region file"⟩
    rfl rfl rfl rfl rfl rfl rfl

/-- C3, counterexample: `new` succeeds on a directory whose `region` folder
is empty (zero roots decoded), and on a failing input it discards the
first error (`InvalidInput`, "Invalid file extension") and substitutes a
generic one. -/
theorem C3_counterexample :
    McWorldDescriptor.new fsEmptyRegion "world"
      = .ok { input_path := "world", version := "0.0.0",
              tag_compounds_list := [] } ∧
    McWorldDescriptor.read_input_path fsBadExt "a.xyz"
      = .error ⟨.invalidInput, "Invalid file extension"⟩ ∧
    McWorldDescriptor.new fsBadExt "a.xyz"
      = .error ⟨.other, "McWorldDescriptor not created because of input file error"⟩ :=
  ⟨rfl, rfl, rfl⟩

/-- C3, amended: `new` succeeds exactly when `read_input_path` succeeds —
which can happen with an empty compound list — and on failure it returns
the fixed generic error, not the first error encountered. -/
theorem C3_new_result (fs : FileSys) (p : FsPath) :
    ((∃ w, McWorldDescriptor.new fs p = .ok w)
        ↔ (∃ l, McWorldDescriptor.read_input_path fs p = .ok l)) ∧
    (∀ e, McWorldDescriptor.read_input_path fs p = .error e →
      McWorldDescriptor.new fs p
        = .error ⟨.other, "McWorldDescriptor not created because of input file error"⟩) := by
  cases h : McWorldDescriptor.read_input_path fs p with
  | ok l =>
    refine ⟨⟨fun _ => ⟨l, rfl⟩,
      fun _ => ⟨⟨p, "0.0.0", l⟩, by simp [McWorldDescriptor.new, h]⟩⟩, ?_⟩
    intro e he
    simp at he
  | error e0 =>
    refine ⟨⟨?_, ?_⟩, fun e he => by simp [McWorldDescriptor.new, h]⟩
    · rintro ⟨w, hw⟩
      simp [McWorldDescriptor.new, h] at hw
    · rintro ⟨l, hl⟩
      simp at hl

/-- C3, witness: both directions at concrete file systems. -/
theorem C3_new_result_witness :
    (∃ w, McWorldDescriptor.new fsEmptyRegion "world" = .ok w) ∧
    McWorldDescriptor.new fsBadExt "a.xyz"
      = .error ⟨.other, "McWorldDescriptor not created because of input file error"⟩ :=
  ⟨(C3_new_result fsEmptyRegion "world").1.mpr ⟨[], rfl⟩,
   (C3_new_result fsBadExt "a.xyz").2
     ⟨.invalidInput, "Invalid file extension"⟩ rfl⟩

/-- C6, counterexample: a `.txt` file in the `region` folder is not
skipped — it aborts the whole directory load with "Invalid file
extension"; and a `.nbt` file there is decoded by the generic binary
loader, not by the region decoder. -/
theorem C6_counterexample :
    McWorldDescriptor.read_input_path fsC6 "world"
      = .error ⟨.invalidInput, "Invalid file extension"⟩ ∧
    McWorldDescriptor.read_input_path fsC6b "world" = .ok [cNbt] ∧
    fsC6b.generic_bin_decode "world/region/a.nbt" FileType.nbt = .ok [cNbt] ∧
    fsC6b.region_decode "world/region/a.nbt"
      = .error ⟨.other, "corrupt region file"⟩ :=
  ⟨rfl, rfl, rfl, rfl⟩

/-- C6, amended: each file in the `region` subfolder goes through the same
extension dispatch as a direct file input (`read_file_format`); its error
aborts the whole load and its compounds are appended otherwise. -/
theorem C6_region_files_dispatch (fs : FileSys) (p q : FsPath)
    (pre : List (Except IoError FsPath)) (lpre : List NbtTagCompound)
    (hdir : fs.is_dir p = true) (hex : fs.path_exists p = true)
    (hrex : fs.path_exists (p ++ "/region") = true)
    (hrdir : fs.is_dir (p ++ "/region") = true)
    (hrd : fs.read_dir (p ++ "/region") = .ok (pre ++ [.ok q]))
    (hpre : McWorldDescriptor.read_dir_entries fs pre = .ok lpre) :
    McWorldDescriptor.read_input_path fs p
      = match McWorldDescriptor.read_file_format fs q with
        | .ok cs => .ok (lpre ++ cs)
        | .error e => .error e := by
  cases hq : McWorldDescriptor.read_file_format fs q <;>
    simp [McWorldDescriptor.read_input_path, hdir, hex, hrex, hrdir, hrd,
      read_dir_entries_append, hpre, McWorldDescriptor.read_dir_entries, hq]

/-- C6, witness at `fsC6b`. -/
theorem C6_region_files_dispatch_witness :
    McWorldDescriptor.read_input_path fsC6b "world"
      = match McWorldDescriptor.read_file_format fsC6b "world/region/a.nbt" with
        | .ok cs => .ok ([] ++ cs)
        | .error e => .error e :=
  C6_region_files_dispatch fsC6b "world" "world/region/a.nbt" [] []
    rfl rfl rfl rfl rfl rfl

/-- C7: single-file dispatch is purely by extension: `.mca`/`.mcr` to the
region decoder, `.nbt`/`.litematic` to the generic binary loader with the
`Nbt` hint, `.json` to the JSON reader, any other extension or a missing
extension to an `InvalidInput` error. -/
theorem C7_file_dispatch (fs : FileSys) (p : FsPath) :
    (path_extension p = some "mca" ∨ path_extension p = some "mcr" →
      McWorldDescriptor.read_file_format fs p = fs.region_decode p) ∧
    (path_extension p = some "nbt" ∨ path_extension p = some "litematic" →
      McWorldDescriptor.read_file_format fs p
        = fs.generic_bin_decode p FileType.nbt) ∧
    (path_extension p = some "json" →
      McWorldDescriptor.read_file_format fs p
        = match fs.json_decode p with
          | .ok c => .ok [c]
          | .error e => .error e) ∧
    (∀ ext, path_extension p = some ext →
      ext ≠ "mca" → ext ≠ "mcr" → ext ≠ "nbt" → ext ≠ "litematic" →
      ext ≠ "json" →
      McWorldDescriptor.read_file_format fs p
        = .error ⟨.invalidInput, "Invalid file extension"⟩) ∧
    (path_extension p = none →
      McWorldDescriptor.read_file_format fs p
        = .error ⟨.invalidInput, "File without extension"⟩) := by
  refine ⟨?_, ?_, ?_, ?_, ?_⟩
  · rintro (h | h) <;> simp [McWorldDescriptor.read_file_format, h]
  · rintro (h | h) <;> simp [McWorldDescriptor.read_file_format, h]
  · intro h
    cases hj : fs.json_decode p <;>
      simp [McWorldDescriptor.read_file_format, h, hj]
  · intro ext h h1 h2 h3 h4 h5
    simp [McWorldDescriptor.read_file_format, h, h1, h2, h3, h4, h5]
  · intro h
    simp [McWorldDescriptor.read_file_format, h]

/-- C7, witness: the five dispatch outcomes at concrete paths. -/
theorem C7_file_dispatch_witness :
    McWorldDescriptor.read_file_format fsMissing "r.0.0.mca"
      = fsMissing.region_decode "r.0.0.mca" ∧
    McWorldDescriptor.read_file_format fsMissing "a.nbt"
      = fsMissing.generic_bin_decode "a.nbt" FileType.nbt ∧
    (McWorldDescriptor.read_file_format fsMissing "d.json"
      = match fsMissing.json_decode "d.json" with
        | .ok c => .ok [c]
        | .error e => .error e) ∧
    McWorldDescriptor.read_file_format fsMissing "a.xyz"
      = .error ⟨.invalidInput, "Invalid file extension"⟩ ∧
    McWorldDescriptor.read_file_format fsMissing "noext"
      = .error ⟨.invalidInput, "File without extension"⟩ :=
  ⟨(C7_file_dispatch fsMissing "r.0.0.mca").1 (Or.inl rfl),
   (C7_file_dispatch fsMissing "a.nbt").2.1 (Or.inl rfl),
   (C7_file_dispatch fsMissing "d.json").2.2.1 rfl,
   (C7_file_dispatch fsMissing "a.xyz").2.2.2.1 "xyz" rfl
     (by decide) (by decide) (by decide) (by decide) (by decide),
   (C7_file_dispatch fsMissing "noext").2.2.2.2 rfl⟩

/-- Modelled from the spec: the region decoder (section 4.5), the generic
binary loader (section 4.6) and the JSON reader all begin by opening the
file at the given path, so on a path that does not exist each fails with an
`Io` error (spec section 7) instead of producing compounds.  The decoder
implementations live in crate modules not present in the given sources. -/
def FileSys.decoders_fail_on_missing (fs : FileSys) : Prop :=
  ∀ p, fs.path_exists p = false →
    (∃ e, fs.region_decode p = .error e) ∧
    (∀ ft, ∃ e, fs.generic_bin_decode p ft = .error e) ∧
    (∃ e, fs.json_decode p = .error e)

/-- C9: for directory inputs, a missing `region` subfolder (or one that is
not a directory) makes the load fail; a path that does not exist at all
also makes the load fail.  In both cases `read_input_path` and `new`
return errors: no world is produced. -/
theorem C9_missing_region_fatal (fs : FileSys) (p : FsPath)
    (h : FileSys.decoders_fail_on_missing fs) :
    (fs.is_dir p = true →
      (fs.path_exists (p ++ "/region") = false ∨
        fs.is_dir (p ++ "/region") = false) →
      (∃ e, McWorldDescriptor.read_input_path fs p = .error e) ∧
      (∃ e, McWorldDescriptor.new fs p = .error e)) ∧
    (fs.path_exists p = false →
      (∃ e, McWorldDescriptor.read_input_path fs p = .error e) ∧
      (∃ e, McWorldDescriptor.new fs p = .error e)) := by
  have newErr : (∃ e, McWorldDescriptor.read_input_path fs p = .error e) →
      ∃ e, McWorldDescriptor.new fs p = .error e :=
    fun he => ⟨_, new_error_of_read_error fs p he⟩
  have part1 : fs.is_dir p = true →
      (fs.path_exists (p ++ "/region") = false ∨
        fs.is_dir (p ++ "/region") = false) →
      ∃ e, McWorldDescriptor.read_input_path fs p = .error e := by
    intro hd hreg
    cases hex : fs.path_exists p with
    | false =>
      exact ⟨⟨.other, "World Directory does not exist"⟩,
        by simp [McWorldDescriptor.read_input_path, hd, hex]⟩
    | true =>
      refine ⟨⟨.other, "SubDir './region' does not exist"⟩, ?_⟩
      rcases hreg with hr | hr <;>
        simp [McWorldDescriptor.read_input_path, hd, hex, hr]
  have part2 : fs.path_exists p = false →
      ∃ e, McWorldDescriptor.read_input_path fs p = .error e := by
    intro hpe
    obtain ⟨⟨er, her⟩, hgen, ⟨ej, hej⟩⟩ := h p hpe
    obtain ⟨eg, heg⟩ := hgen FileType.nbt
    cases hd : fs.is_dir p with
    | true =>
      exact ⟨⟨.other, "World Directory does not exist"⟩,
        by simp [McWorldDescriptor.read_input_path, hd, hpe]⟩
    | false =>
      cases hext : path_extension p with
      | none =>
        exact ⟨⟨.invalidInput, "File without extension"⟩,
          by simp [McWorldDescriptor.read_input_path,
            McWorldDescriptor.read_file_format, hd, hext]⟩
      | some ext =>
        by_cases h1 : ext = "mcr" ∨ ext = "mca"
        · exact ⟨er, by simp [McWorldDescriptor.read_input_path,
            McWorldDescriptor.read_file_format, hd, hext, h1, her]⟩
        · by_cases h2 : ext = "nbt" ∨ ext = "litematic"
          · exact ⟨eg, by simp [McWorldDescriptor.read_input_path,
              McWorldDescriptor.read_file_format, hd, hext, h1, h2, heg]⟩
          · by_cases h3 : ext = "json"
            · exact ⟨ej, by simp [McWorldDescriptor.read_input_path,
                McWorldDescriptor.read_file_format, hd, hext, h1, h2, h3,
                hej]⟩
            · exact ⟨⟨.invalidInput, "Invalid file extension"⟩,
                by simp [McWorldDescriptor.read_input_path,
                  McWorldDescriptor.read_file_format, hd, hext, h1, h2, h3]⟩
  exact ⟨fun hd hreg => ⟨part1 hd hreg, newErr (part1 hd hreg)⟩,
    fun hpe => ⟨part2 hpe, newErr (part2 hpe)⟩⟩

/-- C9, witness: at `fsMissing`, a directory without `region` and a path
that does not exist both fail. -/
theorem C9_missing_region_fatal_witness :
    ((∃ e, McWorldDescriptor.read_input_path fsMissing "world" = .error e) ∧
     (∃ e, McWorldDescriptor.new fsMissing "world" = .error e)) ∧
    ((∃ e, McWorldDescriptor.read_input_path fsMissing "ghost" = .error e) ∧
     (∃ e, McWorldDescriptor.new fsMissing "ghost" = .error e)) := by
  have hh : FileSys.decoders_fail_on_missing fsMissing :=
    fun p hp => ⟨⟨⟨.other, "file not found"⟩, rfl⟩,
      fun ft => ⟨⟨.other, "file not found"⟩, rfl⟩,
      ⟨⟨.other, "file not found"⟩, rfl⟩⟩
  exact ⟨(C9_missing_region_fatal fsMissing "world" hh).1 rfl (Or.inl rfl),
    (C9_missing_region_fatal fsMissing "ghost" hh).2 rfl⟩

/-- C10: `to_json` on a world with no root compounds hits
`.get(0).unwrap()` on `None` and panics (the `none` outcome); only when at
least one root exists does it return the `io::Result` of writing the first
root's JSON. -/
theorem C10_to_json_panics_on_empty (fs : FileSys) (w : McWorldDescriptor)
    (path : FsPath) :
    (w.tag_compounds_list = [] →
      McWorldDescriptor.to_json fs w path = none) ∧
    (∀ c rest, w.tag_compounds_list = c :: rest →
      McWorldDescriptor.to_json fs w path
        = some (fs.compound_to_json c path)) := by
  constructor
  · intro h
    simp [McWorldDescriptor.to_json, h]
  · intro c rest h
    simp [McWorldDescriptor.to_json, h]

/-- The world with no root compounds. -/
def wEmptyRoots : McWorldDescriptor :=
  { input_path := "w", version := "0.0.0", tag_compounds_list := [] }

/-- A world with exactly one root compound. -/
def wOneRoot : McWorldDescriptor :=
  { input_path := "w", version := "0.0.0", tag_compounds_list := [cRegion1] }

/-- C10, witness: the panic outcome on the empty world, the `io::Result`
outcome on a one-root world. -/
theorem C10_to_json_panics_on_empty_witness :
    McWorldDescriptor.to_json fsC2 wEmptyRoots "out.json" = none ∧
    McWorldDescriptor.to_json fsC2 wOneRoot "out.json"
      = some (fsC2.compound_to_json cRegion1 "out.json") :=
  ⟨(C10_to_json_panics_on_empty fsC2 wEmptyRoots "out.json").1 rfl,
   (C10_to_json_panics_on_empty fsC2 wOneRoot "out.json").2 cRegion1 [] rfl⟩
